import Mathlib

/-!
Verification of the markdown post-processing pipeline and the plan editor of
the Vibe-Coder repository (`src/utils.py`, `src/plan_editor.py`).

Strings are modelled as `List Char`; Python's `re` substitutions are modelled
by a small backtracking regular-expression engine whose alternation order,
greedy/lazy quantifier order and leftmost-match scanning mirror CPython's
`re` module on the pattern constructs used by the source code.
-/

set_option maxRecDepth 10000

/-- Python `str.lower()` restricted to ASCII letters (every character the
source code ever compares after lowering is ASCII). -/
def pyLower (c : Char) : Char :=
  if 'A' ≤ c ∧ c ≤ 'Z' then Char.ofNat (c.toNat + 32) else c

/-- The characters Python's `str.strip()` and the regex class `\s` treat as
whitespace. -/
def pySpace (c : Char) : Bool :=
  c = ' ' ∨ c = '\t' ∨ c = '\n' ∨ c = '\r' ∨ c = '\x0b' ∨ c = '\x0c'

/-- Python `str.strip()`. -/
def pyStrip (s : List Char) : List Char :=
  ((s.dropWhile pySpace).reverse.dropWhile pySpace).reverse

/-- Python `str.split(sep)` for a single-character separator. -/
def splitOnCh (sep : Char) : List Char → List (List Char)
  | [] => [[]]
  | c :: t =>
    if c = sep then [] :: splitOnCh sep t
    else
      match splitOnCh sep t with
      | h :: r => (c :: h) :: r
      | [] => [[c]]

/-- Python `content.split('\n')`. -/
def splitOnNl (s : List Char) : List (List Char) := splitOnCh '\n' s

/-- Python `'\n'.join(lines)`. -/
def joinNl : List (List Char) → List Char
  | [] => []
  | [l] => l
  | l :: ls => l ++ '\n' :: joinNl ls

/-- Python's substring test `needle in hay`. -/
def containsSub (hay needle : List Char) : Bool :=
  needle.isPrefixOf hay ||
    (match hay with
     | [] => false
     | _ :: t => containsSub t needle)

/-- Python `str(n)` for a natural number, with explicit fuel (the number of
digits is at most `n` for `n > 0`). -/
def natToCharsAux : Nat → Nat → List Char
  | 0, _ => []
  | _ + 1, 0 => []
  | f + 1, n + 1 =>
    natToCharsAux f ((n + 1) / 10) ++ [Char.ofNat (48 + (n + 1) % 10)]

/-- Python `str(n)`. -/
def natToChars (n : Nat) : List Char :=
  if n = 0 then ['0'] else natToCharsAux n n

/-! ## A backtracking regular-expression engine

The engine covers exactly the constructs appearing in the source patterns:
literals, character classes (with negation and ranges), `.`, `$` (with
`re.MULTILINE`), sequencing, alternation, greedy and lazy `*`, and numbered
capture groups.  Results are produced in CPython backtracking priority
order; the head of the result list is the match Python would return. -/

inductive RE where
  | eps : RE
  | lit : Char → RE
  | cls : Bool → List (Char × Char) → RE
  | anyc : Bool → RE
  | eol : RE
  | seq : RE → RE → RE
  | alt : RE → RE → RE
  | star : Bool → RE → RE
  | grp : Nat → RE → RE
deriving Repr

/-- Capture environment: group number paired with captured text, most recent
assignment first. -/
abbrev Caps := List (Nat × List Char)

/-- Latest captured text for a group (Python guarantees the group matched for
all templates used by the source). -/
def capGet (caps : Caps) (n : Nat) : List Char :=
  match caps.find? (fun p => p.1 = n) with
  | some p => p.2
  | none => []

def charInRanges (c : Char) (rs : List (Char × Char)) : Bool :=
  rs.any (fun r => r.1 ≤ c ∧ c ≤ r.2)

def litMatches (ci : Bool) (p c : Char) : Bool :=
  c = p || (ci && (pyLower c = pyLower p))

/-- Kleene-star matching: `next` matches one copy of the body.  Zero-width
body matches do not iterate (Python's behaviour; no body used by the source
can match the empty string anyway).  Greedy stars yield longer matches
first, lazy stars shorter ones first. -/
def matchStar (next : List Char → Caps → List (Nat × Caps)) (g : Bool) :
    Nat → List Char → Caps → List (Nat × Caps)
  | 0, _, caps => [(0, caps)]
  | f + 1, s, caps =>
    let deeper := (next s caps).flatMap (fun p =>
      if p.1 = 0 then []
      else (matchStar next g f (s.drop p.1) p.2).map (fun q => (p.1 + q.1, q.2)))
    if g then deeper ++ [(0, caps)] else (0, caps) :: deeper

/-- All ways the pattern can match a prefix of `s`, as (consumed length,
captures), in backtracking priority order. -/
def matchRE (ci : Bool) : RE → List Char → Caps → List (Nat × Caps)
  | .eps, _, caps => [(0, caps)]
  | .lit p, s, caps =>
    match s with
    | c :: _ => if litMatches ci p c then [(1, caps)] else []
    | [] => []
  | .cls neg rs, s, caps =>
    match s with
    | c :: _ => if charInRanges c rs ≠ neg then [(1, caps)] else []
    | [] => []
  | .anyc dotAll, s, caps =>
    match s with
    | c :: _ => if dotAll || c ≠ '\n' then [(1, caps)] else []
    | [] => []
  | .eol, s, caps =>
    match s with
    | [] => [(0, caps)]
    | c :: _ => if c = '\n' then [(0, caps)] else []
  | .seq a b, s, caps =>
    (matchRE ci a s caps).flatMap (fun p =>
      (matchRE ci b (s.drop p.1) p.2).map (fun q => (p.1 + q.1, q.2)))
  | .alt a b, s, caps => matchRE ci a s caps ++ matchRE ci b s caps
  | .grp n r, s, caps =>
    (matchRE ci r s caps).map (fun p => (p.1, (n, s.take p.1) :: p.2))
  | .star g r, s, caps =>
    matchStar (fun t cs => matchRE ci r t cs) g (s.length + 1) s caps

/-- `pattern+` (greedy when `g`). -/
def rplus (g : Bool) (r : RE) : RE := .seq r (.star g r)

/-- `pattern?` (greedy). -/
def ropt (r : RE) : RE := .alt r .eps

/-- `pattern{n}`. -/
def repN : Nat → RE → RE
  | 0, _ => .eps
  | n + 1, r => .seq r (repN n r)

/-- `pattern{n,}` (greedy). -/
def atLeast (n : Nat) (r : RE) : RE := .seq (repN n r) (.star true r)

/-- Literal character sequence. -/
def rstrL : List Char → RE
  | [] => .eps
  | c :: t => .seq (.lit c) (rstrL t)

/-- Literal string pattern. -/
def rs (s : String) : RE := rstrL s.toList

/-- Python `re.search(p, s) is not None`, scanning left to right. -/
def pySearch (ci : Bool) (p : RE) : List Char → Bool
  | [] => !(matchRE ci p [] []).isEmpty
  | c :: t => !(matchRE ci p (c :: t) []).isEmpty || pySearch ci p t

/-- One fuelled step list for Python `re.sub`: at each position take the
first match (backtracking order), emit the replacement and continue after
the consumed text; otherwise copy one character.  Zero-width matches emit
the replacement and then copy one character (Python ≥ 3.7; no source pattern
can match zero-width). -/
def pySubF (ci : Bool) (p : RE) (repl : Caps → List Char → List Char) :
    Nat → List Char → List Char
  | 0, s => s
  | f + 1, s =>
    match (matchRE ci p s []).head? with
    | some m =>
      if m.1 = 0 then
        repl m.2 [] ++
          (match s with
           | [] => []
           | c :: t => c :: pySubF ci p repl f t)
      else repl m.2 (s.take m.1) ++ pySubF ci p repl f (s.drop m.1)
    | none =>
      match s with
      | [] => []
      | c :: t => c :: pySubF ci p repl f t

/-- Python `re.sub(p, repl, s)`. -/
def pySub (ci : Bool) (p : RE) (repl : Caps → List Char → List Char)
    (s : List Char) : List Char :=
  pySubF ci p repl (s.length + 1) s

/-- Fuelled scan collecting the capture environments of all non-overlapping
matches, as `re.findall`/`re.finditer` would visit them. -/
def pyFindAllF (ci : Bool) (p : RE) : Nat → List Char → List Caps
  | 0, _ => []
  | f + 1, s =>
    match (matchRE ci p s []).head? with
    | some m =>
      if m.1 = 0 then
        m.2 ::
          (match s with
           | [] => []
           | _ :: t => pyFindAllF ci p f t)
      else m.2 :: pyFindAllF ci p f (s.drop m.1)
    | none =>
      match s with
      | [] => []
      | _ :: t => pyFindAllF ci p f t

/-- Python `re.finditer(p, s)` capture environments. -/
def pyFindAll (ci : Bool) (p : RE) (s : List Char) : List Caps :=
  pyFindAllF ci p (s.length + 1) s

/-! ## Character classes and pattern-building helpers -/

/-- `[A-Z]` -/
def cUpper : RE := .cls false [('A', 'Z')]

/-- `\d` -/
def cDigit : RE := .cls false [('0', '9')]

/-- The ranges of Python's `\s`. -/
def spaceRanges : List (Char × Char) :=
  [(' ', ' '), ('\t', '\t'), ('\n', '\n'), ('\r', '\r'),
   ('\x0b', '\x0b'), ('\x0c', '\x0c')]

/-- `\s` -/
def cSpace : RE := .cls false spaceRanges

/-- `[^\s]` -/
def cNotSpace : RE := .cls true spaceRanges

/-- `[^\]]` -/
def cNotRBrack : RE := .cls true [(']', ']')]

/-- `[^)]` (also written `[^\)]` by the source) -/
def cNotRParen : RE := .cls true [(')', ')')]

/-- `[^/]` -/
def cNotSlash : RE := .cls true [('/', '/')]

/-- `[^/\)]` -/
def cNotSlashParen : RE := .cls true [('/', '/'), (')', ')')]

/-- `[^\s\)]` -/
def cNotSpaceParen : RE := .cls true ((')', ')') :: spaceRanges)

/-- `[^\n]` -/
def cNotNl : RE := .cls true [('\n', '\n')]

/-- `[^"]` -/
def cNotQuote : RE := .cls true [('"', '"')]

/-- `[^|]` -/
def cNotPipe : RE := .cls true [('|', '|')]

/-- `[^*]` -/
def cNotStar : RE := .cls true [('*', '*')]

/-- `[^\x00-\x7F]` -/
def cNonAscii : RE := .cls true [(Char.ofNat 0, Char.ofNat 0x7f)]

/-- Sequence a list of patterns. -/
def rcat (l : List RE) : RE := l.foldr .seq .eps

/-- `https?://` -/
def httpS : RE := rcat [rs "http", ropt (.lit 's'), rs "://"]

/-! ## `src/utils.py` : `calculate_quality_score` -/

/-- The four structural markers of `calculate_quality_score` (`structure_checks`). -/
def structure_checks : List (List Char) :=
  ["# 🚀 AI-generated development plan".toList,
   "## 🤖 AI programming assistant prompts".toList,
   "```mermaid".toList,
   "Project development Gantt chart".toList]

/-- `202[5-9]-\d{2}-\d{2}` -/
def recentDatesPat : RE :=
  rcat [rs "202", .cls false [('5', '9')], .lit '-', repN 2 cDigit, .lit '-',
    repN 2 cDigit]

/-- `202[0-3]-\d{2}-\d{2}` -/
def oldDatesPat : RE :=
  rcat [rs "202", .cls false [('0', '3')], .lit '-', repN 2 cDigit, .lit '-',
    repN 2 cDigit]

/-- The fake-link patterns of `calculate_quality_score` (`fake_link_patterns`),
all of them literal strings once `\.` is unescaped. -/
def qualityFakePatterns : List RE :=
  [rs "blog.csdn.net/username", rs "github.com/username", rs "example.com",
   rs "xxx.com"]

/-- The diagram-corruption patterns of `calculate_quality_score`
(`mermaid_issues`). -/
def mermaidIssuePatterns : List RE :=
  [rcat [rs "## 🎯 ", cUpper], rs "```mermaid\n## 🎯"]

/-- Length component of the score (`> 500` : +15, `> 2000` : +15). -/
def lenScore (c : List Char) : Nat :=
  (if 500 < c.length then 15 else 0) + (if 2000 < c.length then 15 else 0)

/-- Structure component (+6 per marker contained in the document). -/
def structScore (c : List Char) : Nat :=
  (structure_checks.map (fun chk => if containsSub c chk then 6 else 0)).sum

/-- Date component (+10 for a recent date, +10 for no stale date). -/
def dateScore (c : List Char) : Nat :=
  (if pySearch false recentDatesPat c then 10 else 0) +
    (if pySearch false oldDatesPat c then 0 else 10)

/-- `has_fake_links` (searched with `re.IGNORECASE`). -/
def hasFakeLinks (c : List Char) : Bool :=
  qualityFakePatterns.any (fun p => pySearch true p c)

/-- Link component (+15 when no fake-link pattern occurs). -/
def linkScore (c : List Char) : Nat :=
  if hasFakeLinks c then 0 else 15

/-- `has_mermaid_issues`. -/
def hasMermaidIssues (c : List Char) : Bool :=
  mermaidIssuePatterns.any (fun p => pySearch false p c)

/-- Mermaid component (+10 when no corruption pattern occurs). -/
def mermaidScore (c : List Char) : Nat :=
  if hasMermaidIssues c then 0 else 10

/-- The accumulated score before the final `min(score, max_score)`. -/
def rawScore (c : List Char) : Nat :=
  lenScore c + structScore c + dateScore c + linkScore c + mermaidScore c

/-- `calculate_quality_score` from `src/utils.py`. -/
def calculate_quality_score (c : List Char) : Nat :=
  if c = [] then 0 else min (rawScore c) 100

/-! ## `src/utils.py` : `enhance_mermaid_blocks` and `fix_mermaid_syntax` -/

/-- `` ```mermaid\n(.*?)\n``` `` with `re.DOTALL` (lazy star over any
character). -/
def mermaidBlockPat : RE :=
  rcat [rs "```mermaid\n", .grp 1 (.star false (.anyc true)), rs "\n```"]

/-- `enhance_mermaid_blocks` from `src/utils.py`: re-wraps each fenced
mermaid block verbatim. -/
def enhance_mermaid_blocks (c : List Char) : List Char :=
  pySub false mermaidBlockPat
    (fun caps _ => "```mermaid\n".toList ++ capGet caps 1 ++ "\n```".toList) c

/-- The ordered `fixes` table of `fix_mermaid_syntax`: pattern and
replacement for each `re.sub` (flags `re.MULTILINE`). -/
def mermaidFixes : List (RE × (Caps → List Char → List Char)) :=
  [ (rcat [rs "## 🎯 ", .grp 1 (rcat [cUpper, .star true cSpace, rs "-->"])],
      fun caps _ => capGet caps 1),
    (rcat [rs "## 🎯 ", .grp 1 (rcat [rs "section ", rplus true cNotRParen])],
      fun caps _ => capGet caps 1),
    (rcat [.grp 1 (.alt (.lit '\n') (rs "\r\n")), rs "## 🎯 ",
        .grp 2 (rcat [cUpper, .star true cSpace, rs "-->"])],
      fun caps _ => '\n' :: "    ".toList ++ capGet caps 2),
    (rcat [.grp 1 (.alt (.lit '\n') (rs "\r\n")), rs "## 🎯 ",
        .grp 2 (rcat [rs "section ", rplus true cNotNl])],
      fun caps _ => '\n' :: "    ".toList ++ capGet caps 2),
    (rcat [rs "## 🎯 ",
        .grp 1 (rcat [cUpper, .lit '[', rplus true cNotRBrack, .lit ']'])],
      fun caps _ => capGet caps 1),
    (rs "```mermaid\n## 🎯", fun _ _ => "```mermaid".toList),
    (rcat [.lit '\n', .lit '#', rplus true (.lit '#'), rs " 🎯 ", .grp 1 cUpper],
      fun caps _ => '\n' :: "    ".toList ++ capGet caps 1),
    (rcat [.grp 1 (rplus true cUpper), rs "[\"", .grp 2 (rplus true cNotQuote),
        rs "\"]"],
      fun caps _ => capGet caps 1 ++ "[\"".toList ++ capGet caps 2 ++ "\"]".toList),
    (rcat [.grp 1 (rplus true cUpper), rs "[\"\"", .grp 2 (rplus true cNotQuote),
        rs "\"\"]"],
      fun caps _ => capGet caps 1 ++ "[\"".toList ++ capGet caps 2 ++ "\"]".toList),
    (rcat [.grp 1 (rplus true cUpper), rs "[\"⚡\"", .grp 2 (rplus true cNotQuote),
        rs "\"\"]"],
      fun caps _ => capGet caps 1 ++ "[\"".toList ++ capGet caps 2 ++ "\"]".toList),
    (rcat [.grp 1 (rplus true cUpper), .lit '[',
        .grp 2 (rcat [.star true cNotRBrack, cNonAscii, .star true cNotRBrack]),
        .lit ']'],
      fun caps _ => capGet caps 1 ++ "[\"".toList ++ capGet caps 2 ++ "\"]".toList),
    (rcat [rs "graph TB\n", .star true cSpace, rs "graph"],
      fun _ _ => "graph TB".toList),
    (rcat [rs "flowchart TD\n", .star true cSpace, rs "flowchart"],
      fun _ _ => "flowchart TD".toList),
    (rs "-->", fun _ _ => " --> ".toList),
    (rcat [rs "-->", .grp 1 cUpper], fun caps _ => "--> ".toList ++ capGet caps 1),
    (rcat [.grp 1 cUpper, rs "-->"], fun caps _ => capGet caps 1 ++ " -->".toList) ]

/-- `fix_mermaid_syntax` from `src/utils.py`. -/
def fix_mermaid_syntax (c : List Char) : List Char :=
  enhance_mermaid_blocks
    (mermaidFixes.foldl (fun acc pr => pySub false pr.1 pr.2 acc) c)

/-! ## `src/utils.py` : URL validation and link sanitizing -/

/-- The characters `urllib.parse` allows inside a URL scheme. -/
def schemeChar (c : Char) : Bool :=
  c.isAlpha || c.isDigit || c = '+' || c = '-' || c = '.'

/-- Modelled restriction of `urllib.parse.urlparse` (used by `validate_url`):
the scheme is the lowercased text before the first `:` when it starts with an
ASCII letter and uses only scheme characters; remainder otherwise untouched. -/
def urlSplitScheme (u : List Char) : List Char × List Char :=
  let pre := u.takeWhile (fun c => c ≠ ':')
  if pre.length < u.length ∧ pre ≠ [] ∧ (pre.headD ' ').isAlpha ∧
      pre.all schemeChar then
    (pre.map pyLower, u.drop (pre.length + 1))
  else ([], u)

/-- `urlparse(u).scheme`. -/
def urlScheme (u : List Char) : List Char := (urlSplitScheme u).1

/-- `urlparse(u).netloc`: after the scheme, the text between `//` and the
next `/`, `?` or `#`. -/
def urlNetloc (u : List Char) : List Char :=
  let rest := (urlSplitScheme u).2
  if "//".toList.isPrefixOf rest then
    (rest.drop 2).takeWhile (fun c => c ≠ '/' ∧ c ≠ '?' ∧ c ≠ '#')
  else []

/-- `validate_url` from `src/utils.py`: `all([result.scheme, result.netloc])`. -/
def validate_url (u : List Char) : Bool :=
  urlScheme u ≠ [] ∧ urlNetloc u ≠ []

/-- The `trusted_domains` allow-list of `enhance_real_links`. -/
def trusted_domains : List (List Char) :=
  ["docs.python.org".toList, "nodejs.org".toList, "reactjs.org".toList,
   "vuejs.org".toList, "angular.io".toList, "flask.palletsprojects.com".toList,
   "fastapi.tiangolo.com".toList, "docker.com".toList, "kubernetes.io".toList,
   "github.com".toList, "gitlab.com".toList, "stackoverflow.com".toList,
   "developer.mozilla.org".toList, "w3schools.com".toList, "jwt.io".toList,
   "redis.io".toList, "mongodb.com".toList, "postgresql.org".toList,
   "mysql.com".toList, "nginx.org".toList, "apache.org".toList]

/-- `\[([^\]]+)\]\(([^)]+)\)` — the markdown-link pattern of
`enhance_real_links`. -/
def linkPattern : RE :=
  rcat [.lit '[', .grp 1 (rplus true cNotRBrack), rs "](",
    .grp 2 (rplus true cNotRParen), .lit ')']

/-- The markdown link `[text](url)`. -/
def mkMdLink (text url : List Char) : List Char :=
  '[' :: text ++ "](".toList ++ url ++ [')']

/-- The inner `validate_link` of `enhance_real_links`: demote ill-formed
URLs, keep links whose URL contains a trusted domain (substring test on the
lowercased URL, as the source's `domain in link_url.lower()`), demote the
rest. -/
def validateLink (text url : List Char) : List Char :=
  if validate_url url = false then
    "**".toList ++ text ++ "** (Reference Resource)".toList
  else if trusted_domains.any (fun d => containsSub (url.map pyLower) d) then
    mkMdLink text url
  else
    "**".toList ++ text ++ "** (Technical Reference)".toList

/-- `enhance_real_links` from `src/utils.py`. -/
def enhance_real_links (c : List Char) : List Char :=
  pySub false linkPattern
    (fun caps _ => validateLink (capGet caps 1) (capGet caps 2)) c

/-- Replacement used for the grouped fake-link patterns
(`**{text}** (Based on industry standards)`). -/
def fakeGroupRepl (caps : Caps) (_m : List Char) : List Char :=
  "**".toList ++ capGet caps 1 ++ "** (Based on industry standards)".toList

/-- Replacement used for the groupless fake-link patterns. -/
def fakeBareRepl (_caps : Caps) (_m : List Char) : List Char :=
  "(Based on industry best practices)".toList

/-- The ordered `fake_link_patterns` table of `validate_and_clean_links`
(each substituted with `re.IGNORECASE`). -/
def fakeLinkSubs : List (RE × (Caps → List Char → List Char)) :=
  [ (rcat [.lit '[', .grp 1 (rplus true cNotRBrack), rs "](", httpS,
       rs "medium.com/@", rplus true cNotSlash, .lit '/',
       .star true cNotRParen, atLeast 9 cDigit, .star true cNotRParen,
       .lit ')'], fakeGroupRepl),
    (rcat [.lit '[', .grp 1 (rplus true cNotRBrack), rs "](", httpS,
       rs "github.com/", rplus true cNotSlash, .lit '/',
       .star true cNotSlashParen, rs "education", .star true cNotRParen,
       .lit ')'], fakeGroupRepl),
    (rcat [.lit '[', .grp 1 (rplus true cNotRBrack), rs "](", httpS,
       rs "www.kdnuggets.com/", repN 4 cDigit, .lit '/', repN 2 cDigit,
       .lit '/', .star true cNotRParen, .lit ')'], fakeGroupRepl),
    (rcat [.lit '[', .grp 1 (rplus true cNotRBrack), rs "](", rs "https0://",
       rplus true cNotRParen, .lit ')'], fakeGroupRepl),
    (rcat [httpS, rs "blog.csdn.net/username/article/details/",
       rplus true cDigit], fakeBareRepl),
    (rcat [httpS, rs "github.com/username/", rplus true cNotSpaceParen],
      fakeBareRepl),
    (rcat [httpS, .star true cNotSlash, rs "example.com",
       .star true cNotSpaceParen], fakeBareRepl),
    (rcat [httpS, .star true cNotSlash, rs "xxx.com",
       .star true cNotSpaceParen], fakeBareRepl),
    (rcat [httpS, .star true cNotSlash, rs "test.com",
       .star true cNotSpaceParen], fakeBareRepl),
    (rcat [httpS, rs "localhost", .star true cNotSpaceParen], fakeBareRepl),
    (rcat [rs "https0://", rplus true cNotSpaceParen], fakeBareRepl),
    (rcat [httpS, rs "medium.com/@", rplus true cNotSlash, .lit '/',
       .star true cNotSpace, atLeast 9 cDigit, .star true cNotSpace],
      fakeBareRepl),
    (rcat [httpS, rs "github.com/", rplus true cNotSlash, .lit '/',
       .star true (.cls true (('/', '/') :: spaceRanges)), rs "education",
       .star true cNotSpace], fakeBareRepl),
    (rcat [httpS, rs "www.kdnuggets.com/", repN 4 cDigit, .lit '/',
       repN 2 cDigit, .lit '/', .star true cNotSpace], fakeBareRepl) ]

/-- `validate_and_clean_links` from `src/utils.py`: remove the fake-link
shapes, then gate every remaining markdown link. -/
def validate_and_clean_links (c : List Char) : List Char :=
  enhance_real_links
    (fakeLinkSubs.foldl (fun acc pr => pySub true pr.1 pr.2 acc) c)

/-! ## `src/utils.py` : `fix_date_consistency` -/

/-- `202[0-3]-\d{2}-\d{2}` (same shape as `oldDatesPat`, reused as the first
`old_year_patterns` entry). -/
def oldDateFullPat : RE := oldDatesPat

/-- `202[0-3]year`, written so the literal `y` is the head of its own
sequent (used to show the pattern cannot match text without a `y`). -/
def oldYearWordPat : RE :=
  .seq (rcat [rs "202", .cls false [('0', '3')]]) (.seq (.lit 'y') (rs "ear"))

/-- The inner `replace_old_date` of `fix_date_consistency` (parameterised by
`current_year = datetime.now().year`). -/
def replaceOldDate (currentYear : Nat) (_caps : Caps) (m : List Char) :
    List Char :=
  if '-' ∈ m then
    let parts := splitOnCh '-' m
    natToChars currentYear ++ '-' :: (parts.drop 1).headD [] ++
      '-' :: (parts.drop 2).headD []
  else natToChars currentYear ++ "year".toList

/-- `fix_date_consistency` from `src/utils.py`, with `datetime.now().year`
made an explicit parameter. -/
def fix_date_consistency (currentYear : Nat) (c : List Char) : List Char :=
  pySub false oldYearWordPat (replaceOldDate currentYear)
    (pySub false oldDateFullPat (replaceOldDate currentYear) c)

/-! ## `src/utils.py` : `fix_formatting_issues` -/

/-- The ordered `fixes` table of `fix_formatting_issues` (flags
`re.MULTILINE`, hence `.eol` for `$`). -/
def formattingFixes : List (RE × (Caps → List Char → List Char)) :=
  [ (rcat [rs "#### 🚀 **", .eol], fun _ _ => "#### 🚀 **Development Stage**".toList),
    (rs "#### 🚀 Phase：**", fun _ _ => "#### 🚀 **Stage 1**:".toList),
    (rcat [rs "### 📋 ", .grp 1 (rplus true cDigit), rs ". **第",
       rplus true cDigit, rs "阶段"],
      fun caps _ => "### 📋 ".toList ++ capGet caps 1 ++ ". **Stage ".toList ++
        capGet caps 1),
    (rcat [rs "\n## 🎯 | ", .grp 1 (rplus true cNotPipe), rs " | ",
       .grp 2 (rplus true cNotPipe), rs " | ", .grp 3 (rplus true cNotPipe),
       rs " |"],
      fun caps _ => "\n| ".toList ++ capGet caps 1 ++ " | ".toList ++
        capGet caps 2 ++ " | ".toList ++ capGet caps 3 ++ " |".toList),
    (rcat [rs "\n### 📋 ", .grp 1 (rplus true cDigit), rs ". **",
       .grp 2 (rplus true cNotStar), rs "**："],
      fun caps _ => "\n**".toList ++ capGet caps 1 ++ ". ".toList ++
        capGet caps 2 ++ "**:".toList),
    (rcat [rs "\n### 📋 ", .grp 1 (rplus true cDigit), rs ". **",
       .grp 2 (rplus true cNotStar), rs "**", .eol],
      fun caps _ => "\n**".toList ++ capGet caps 1 ++ ". ".toList ++
        capGet caps 2 ++ "**".toList),
    (atLeast 4 (.lit '\n'), fun _ _ => "\n\n\n".toList),
    (rs "##\n\n---",
      fun _ _ => "## Summary\n\nAbove is the complete development plan and technical solution.\n\n---".toList) ]

/-- `fix_formatting_issues` from `src/utils.py`. -/
def fix_formatting_issues (c : List Char) : List Char :=
  formattingFixes.foldl (fun acc pr => pySub false pr.1 pr.2 acc) c

/-! ## `src/utils.py` : `validate_and_fix_content` (the content pipeline) -/

/-- `validate_and_fix_content` from `src/utils.py`.  The quality scores it
computes are only logged, never influence the returned content, and are
therefore not part of the returned value. -/
def validate_and_fix_content (currentYear : Nat) (c : List Char) : List Char :=
  if c = [] then c
  else
    fix_formatting_issues
      (fix_date_consistency currentYear
        (validate_and_clean_links ( fix_mermaid_syntax c)))

/-! ## `src/plan_editor.py` : data model -/

/-- The `section_type` values of `EditableSection`. -/
inductive SType where
  | heading : SType
  | paragraph : SType
  | list : SType
  | code : SType
  | table : SType
deriving DecidableEq, Repr

/-- `EditableSection` from `src/plan_editor.py`. -/
structure EditableSection where
  section_id : List Char
  title : List Char
  content : List Char
  section_type : SType
  level : Nat
  start_line : Nat
  end_line : Nat
  is_editable : Bool
deriving DecidableEq, Repr

/-- One entry of `PlanEditor.edit_history`. -/
structure EditHistoryEntry where
  timestamp : List Char
  section_id : List Char
  old_content : List Char
  new_content : List Char
  user_comment : List Char
deriving DecidableEq, Repr

/-- The mutable state of the `PlanEditor` class. -/
structure PlanEditorState where
  sections : List EditableSection
  original_content : List Char
  modified_content : List Char
  edit_history : List EditHistoryEntry
deriving DecidableEq, Repr

/-- `PlanEditor.__init__`. -/
def initial_editor : PlanEditorState := ⟨[], [], [], []⟩

/-- The `non_editable_patterns` of `_is_section_editable` (all of them
literal regexes, searched in the lowercased title). -/
def non_editable_patterns : List (List Char) :=
  ["Generation time".toList, "AI model".toList,
   "Based on user creativity".toList, "Agent application".toList,
   "meta-info".toList]

/-- `_is_section_editable` from `src/plan_editor.py`: the title is lowercased
and each (literal) pattern is searched in it. -/
def is_section_editable (title : List Char) : Bool :=
  !(non_editable_patterns.any (fun p => containsSub (title.map pyLower) p))

/-- `line.startswith(('-', '*', '+'))`. -/
def listMarker (line : List Char) : Bool :=
  match line with
  | c :: _ => c = '-' ∨ c = '*' ∨ c = '+'
  | [] => false

/-- `re.match(r'^\d+\.', line)`. -/
def matchesNumDot (line : List Char) : Bool :=
  let ds := line.takeWhile Char.isDigit
  !ds.isEmpty && (line.drop ds.length).headD ' ' = '.'

/-- Section id `f"{prefix}{counter}"`. -/
def mkId (p : String) (k : Nat) : List Char := p.toList ++ natToChars k

/-- The guarded append `if current_section and current_section.content.strip():
sections.append(current_section)` of the parser. -/
def flushCur (cur : Option EditableSection) (secs : List EditableSection) :
    List EditableSection :=
  match cur with
  | some c => if pyStrip c.content = [] then secs else secs ++ [c]
  | none => secs

/-- The parsing loop of `parse_plan_content`, one step per fuel unit (each
step consumes at least one line, so `fuel = number of lines` suffices).
`raws` are the unconsumed raw lines, `i` the index of the first of them,
`cur` the accumulating section, `secs` the finished sections and `k` the
shared section counter. -/
def parseLoop : Nat → List (List Char) → Nat → Option EditableSection →
    List EditableSection → Nat → List EditableSection
  | 0, _, _, cur, secs, _ => flushCur cur secs
  | _ + 1, [], _, cur, secs, _ => flushCur cur secs
  | fuel + 1, raw :: rest, i, cur, secs, k =>
    let line := pyStrip raw
    if ['#'].isPrefixOf line ∧ ¬("```".toList.isPrefixOf line) ∧
        (line.takeWhile (fun c => c = '#')).length ≤ 6 then
      let title := pyStrip (line.dropWhile (fun c => c = '#'))
      let sec : EditableSection :=
        ⟨mkId "section_" (k + 1), title, line, .heading,
          (line.takeWhile (fun c => c = '#')).length, i, i,
          is_section_editable title⟩
      parseLoop fuel rest (i + 1) (some sec) (flushCur cur secs) (k + 1)
    else if "```".toList.isPrefixOf line then
      let body := rest.takeWhile (fun r => ¬("```".toList.isPrefixOf (pyStrip r)))
      let rest' := rest.drop body.length
      match rest' with
      | closing :: rest'' =>
        let sec : EditableSection :=
          ⟨mkId "code_" (k + 1), "Code Block".toList,
            joinNl (line :: body ++ [closing]), .code, 0, i,
            i + body.length + 1, true⟩
        parseLoop fuel rest'' (i + body.length + 2) none
          (flushCur cur secs ++ [sec]) (k + 1)
      | [] =>
        let sec : EditableSection :=
          ⟨mkId "code_" (k + 1), "Code Block".toList, joinNl (line :: body),
            .code, 0, i, i + body.length, true⟩
        parseLoop fuel [] (i + body.length + 1) none
          (flushCur cur secs ++ [sec]) (k + 1)
    else if '|' ∈ line ∧ 2 ≤ line.count '|' then
      let tbody := rest.takeWhile (fun r => '|' ∈ r ∧ 2 ≤ r.count '|')
      let sec : EditableSection :=
        ⟨mkId "table_" (k + 1), "Table".toList, joinNl (line :: tbody),
          .table, 0, i, i + tbody.length, true⟩
      parseLoop fuel (rest.drop tbody.length) (i + tbody.length + 1) none
        (flushCur cur secs ++ [sec]) (k + 1)
    else if listMarker line ∨ matchesNumDot line then
      match cur with
      | some c =>
        if c.section_type ≠ .list then
          let sec : EditableSection :=
            ⟨mkId "list_" (k + 1), "List".toList, line, .list, 0, i, i, true⟩
          parseLoop fuel rest (i + 1) (some sec) (flushCur (some c) secs) (k + 1)
        else
          parseLoop fuel rest (i + 1)
            (some {c with content := c.content ++ '\n' :: line, end_line := i})
            secs k
      | none =>
        let sec : EditableSection :=
          ⟨mkId "list_" (k + 1), "List".toList, line, .list, 0, i, i, true⟩
        parseLoop fuel rest (i + 1) (some sec) secs (k + 1)
    else if line ≠ [] then
      match cur with
      | some c =>
        if c.section_type = .paragraph then
          parseLoop fuel rest (i + 1)
            (some {c with content := c.content ++ '\n' :: line, end_line := i})
            secs k
        else if c.section_type = .heading then
          let sec : EditableSection :=
            ⟨mkId "paragraph_" (k + 1), "Paragraph".toList, line, .paragraph,
              0, i, i, true⟩
          parseLoop fuel rest (i + 1) (some sec) (secs ++ [c]) (k + 1)
        else
          let sec : EditableSection :=
            ⟨mkId "paragraph_" (k + 1), "Paragraph".toList, line, .paragraph,
              0, i, i, true⟩
          parseLoop fuel rest (i + 1) (some sec) (flushCur (some c) secs) (k + 1)
      | none =>
        let sec : EditableSection :=
          ⟨mkId "paragraph_" (k + 1), "Paragraph".toList, line, .paragraph,
            0, i, i, true⟩
        parseLoop fuel rest (i + 1) (some sec) secs (k + 1)
    else
      parseLoop fuel rest (i + 1) cur secs k

/-- `parse_plan_content` from `src/plan_editor.py` (the returned section
list; the state update is `editor_parse` below). -/
def parse_plan_content (content : List Char) : List EditableSection :=
  let lines := splitOnNl content
  parseLoop lines.length lines 0 none [] 0

/-- The state effect of `parse_plan_content` (stores the original content
and the parsed sections; history and modified content are untouched). -/
def editor_parse (s : PlanEditorState) (content : List Char) :
    PlanEditorState :=
  {s with original_content := content, sections := parse_plan_content content}

/-! ## `src/plan_editor.py` : rebuild and update -/

/-- The splice loop of `_rebuild_content`: copy original lines up to each
section's `start_line`, emit the section's (possibly edited) content, resume
after its `end_line`; trailing original lines are copied verbatim.
(The Python loop indexes `lines[current_line]` directly; the `take`/`drop`
form agrees with it whenever every section's `start_line` is at most the
number of lines, which is a hypothesis wherever it matters below.) -/
def rebuildLines (lines : List (List Char)) :
    Nat → List EditableSection → List (List Char)
  | cur, [] => lines.drop cur
  | cur, sec :: rest =>
    (lines.drop cur).take (sec.start_line - cur) ++ splitOnNl sec.content ++
      rebuildLines lines (sec.end_line + 1) rest

/-- Stable insertion used to model Python's stable `sorted(..., key=lambda
x: x.start_line)`. -/
def insertByStart (x : EditableSection) :
    List EditableSection → List EditableSection
  | [] => [x]
  | y :: t =>
    if x.start_line ≤ y.start_line then x :: y :: t else y :: insertByStart x t

/-- `sorted(self.sections, key=lambda x: x.start_line)` (stable). -/
def sortByStart : List EditableSection → List EditableSection
  | [] => []
  | x :: t => insertByStart x (sortByStart t)

/-- `_rebuild_content` from `src/plan_editor.py`. -/
def rebuild_content (original : List Char) (secs : List EditableSection) :
    List Char :=
  joinNl (rebuildLines (splitOnNl original) 0 (sortByStart secs))

/-- In-place mutation of the first section with the given id (Python mutates
the object `find` returned). -/
def updateFirst (id nc : List Char) :
    List EditableSection → List EditableSection
  | [] => []
  | sec :: rest =>
    if sec.section_id == id then {sec with content := nc} :: rest
    else sec :: updateFirst id nc rest

/-- `update_section` from `src/plan_editor.py`, with `datetime.now()
.isoformat()` passed in as `now`.  Returns the boolean result together with
the state after the call. -/
def update_section (now id nc comment : List Char) (s : PlanEditorState) :
    Bool × PlanEditorState :=
  match s.sections.find? (fun sec => sec.section_id == id) with
  | none => (false, s)
  | some tgt =>
    if tgt.is_editable = false then (false, s)
    else
      let secs' := updateFirst id nc s.sections
      (true,
        { s with
            sections := secs'
            edit_history :=
              s.edit_history ++ [⟨now, id, tgt.content, nc, comment⟩]
            modified_content := rebuild_content s.original_content secs' })

/-- `get_modified_content` from `src/plan_editor.py` (Python truthiness of
the stored string). -/
def get_modified_content (s : PlanEditorState) : List Char :=
  if s.modified_content = [] then s.original_content else s.modified_content

/-- Prefix of the rebuild loop: the lines it emits for the sections strictly
before a distinguished one, then the original-line gap up to `stop`. -/
def rebuildUpTo (lines : List (List Char)) :
    Nat → List EditableSection → Nat → List (List Char)
  | cur, [], stop => (lines.drop cur).take (stop - cur)
  | cur, sec :: rest, stop =>
    (lines.drop cur).take (sec.start_line - cur) ++ splitOnNl sec.content ++
      rebuildUpTo lines (sec.end_line + 1) rest stop

/-! ## Component bounds for the quality score -/

lemma lenScore_le (c : List Char) : lenScore c ≤ 30 := by
  unfold lenScore; split_ifs <;> omega

lemma structScore_le (c : List Char) : structScore c ≤ 24 := by
  simp only [structScore, structure_checks, List.map_cons, List.map_nil,
    List.sum_cons, List.sum_nil]
  split_ifs <;> omega

lemma dateScore_le (c : List Char) : dateScore c ≤ 20 := by
  unfold dateScore; split_ifs <;> omega

lemma linkScore_le (c : List Char) : linkScore c ≤ 15 := by
  unfold linkScore; split_ifs <;> omega

lemma mermaidScore_le (c : List Char) : mermaidScore c ≤ 10 := by
  unfold mermaidScore; split_ifs <;> omega

lemma rawScore_le (c : List Char) : rawScore c ≤ 99 := by
  have h1 := lenScore_le c
  have h2 := structScore_le c
  have h3 := dateScore_le c
  have h4 := linkScore_le c
  have h5 := mermaidScore_le c
  unfold rawScore; omega

/-- C6: `calculate_quality_score` returns `0` on the empty document, and its
result always lies within `[0, 100]` (the return type is `Nat`, so it is
never negative, and the final `min` caps it at 100). -/
theorem C6_quality_score_range :
    calculate_quality_score "".toList = 0 ∧
      ∀ c : List Char, calculate_quality_score c ≤ 100 := by
  refine ⟨by decide, fun c => ?_⟩
  unfold calculate_quality_score
  split
  · omega
  · exact min_le_right _ _

/-- C10: the point allocations of `calculate_quality_score` sum to
`30 + 24 + 20 + 15 + 10 = 99`, so the score never exceeds 99 and the final
`min(score, 100)` cap never takes effect. -/
theorem C10_quality_score_max_99 :
    ∀ c : List Char, calculate_quality_score c ≤ 99 ∧
      min (rawScore c) 100 = rawScore c := by
  intro c
  have h := rawScore_le c
  constructor
  · unfold calculate_quality_score
    split
    · omega
    · omega
  · omega

lemma structure_check_ne_nil {m : List Char} (hm : m ∈ structure_checks) :
    m ≠ [] := by
  fin_cases hm <;> decide

lemma containsSub_nil_iff (m : List Char) :
    containsSub [] m = true ↔ m = [] := by
  cases m with
  | nil => simp [containsSub]
  | cons c t => simp [containsSub, List.isPrefixOf]

/-- C7: adding one of the four scored structural markers to a document that
lacks it — while every other scored signal (the other markers, the length
thresholds, the date signals, the fake-link signal and the diagram-corruption
signal) keeps its truth value — can only increase `calculate_quality_score`. -/
theorem C7_structural_marker_monotone (c1 c2 m : List Char)
    (hm : m ∈ structure_checks)
    (h1 : containsSub c1 m = false) (h2 : containsSub c2 m = true)
    (hoth : ∀ m' ∈ structure_checks, m' ≠ m →
      containsSub c1 m' = containsSub c2 m')
    (hlen5 : 500 < c1.length ↔ 500 < c2.length)
    (hlen2 : 2000 < c1.length ↔ 2000 < c2.length)
    (hrec : pySearch false recentDatesPat c1 = pySearch false recentDatesPat c2)
    (hold : pySearch false oldDatesPat c1 = pySearch false oldDatesPat c2)
    (hfake : hasFakeLinks c1 = hasFakeLinks c2)
    (hmer : hasMermaidIssues c1 = hasMermaidIssues c2) :
    calculate_quality_score c1 ≤ calculate_quality_score c2 := by
  have hc2 : ¬(c2 = []) := by
    intro h
    rw [h] at h2
    exact structure_check_ne_nil hm ((containsSub_nil_iff m).mp h2)
  by_cases hc1 : c1 = []
  · simp [calculate_quality_score, hc1]
  · have hlen : lenScore c1 = lenScore c2 := by
      unfold lenScore
      rw [if_congr hlen5 rfl rfl, if_congr hlen2 rfl rfl]
    have hdate : dateScore c1 = dateScore c2 := by
      unfold dateScore; rw [hrec, hold]
    have hlink : linkScore c1 = linkScore c2 := by
      unfold linkScore; rw [hfake]
    have hmerm : mermaidScore c1 = mermaidScore c2 := by
      unfold mermaidScore; rw [hmer]
    have hstruct : structScore c1 ≤ structScore c2 := by
      fin_cases hm <;>
      · simp only [structScore, structure_checks, List.map_cons, List.map_nil,
          List.sum_cons, List.sum_nil]
        rw [h1, h2,
          hoth _ (by decide) (by decide), hoth _ (by decide) (by decide),
          hoth _ (by decide) (by decide)]
        simp only [Bool.false_eq_true, if_false, if_true, eq_self_iff_true]
        split_ifs <;> omega
    have hraw : rawScore c1 ≤ rawScore c2 := by
      unfold rawScore
      rw [hlen, hdate, hlink, hmerm]
      omega
    unfold calculate_quality_score
    simp only [hc1, hc2, if_false]
    exact min_le_min hraw (le_refl 100)

/-- Witness for C7: appending the Gantt-chart marker to the one-character
document `"a"` keeps every other signal fixed and does not lower the score. -/
theorem C7_structural_marker_monotone_witness :
    calculate_quality_score "a".toList ≤
      calculate_quality_score "aProject development Gantt chart".toList :=
  C7_structural_marker_monotone _ _ "Project development Gantt chart".toList
    (by decide) (by decide) (by decide)
    (by intro m' hm' hne; fin_cases hm' <;> first | decide | (exact absurd rfl hne))
    (by decide) (by decide) (by decide) (by decide) (by decide) (by decide)

/-- C5: on empty content the pipeline returns its input unchanged (the
guard `if not content` short-circuits before any fixer stage runs). -/
theorem C5_empty_content_unchanged (currentYear : Nat) (c : List Char)
    (h : c = []) : validate_and_fix_content currentYear c = c := by
  rw [h]; rfl

/-- Witness for C5 at the empty document. -/
theorem C5_empty_content_unchanged_witness :
    validate_and_fix_content 2026 [] = [] :=
  C5_empty_content_unchanged 2026 [] rfl

/-- C1 fails: the content pipeline is not idempotent.  Running
`validate_and_fix_content` a second time on its own output changes the
string again, because the arrow-spacing substitution `'-->' ↦ ' --> '` in
`fix_mermaid_syntax` re-triggers on the already-spaced arrow. -/
theorem C1_pipeline_not_idempotent :
    validate_and_fix_content 2026
        (validate_and_fix_content 2026 "A-->B".toList) ≠
      validate_and_fix_content 2026 "A-->B".toList := by
  decide

/-- C1 amended: the pipeline is not idempotent; the arrow-spacing
substitution of `fix_mermaid_syntax` re-triggers on already-fixed text and
inserts one further space on each side per run: one run turns `A-->B` into
`A --> B`, and a second run turns that into `A  -->  B`. -/
theorem C1_arrow_fix_retriggers :
    validate_and_fix_content 2026 "A-->B".toList = "A --> B".toList ∧
      validate_and_fix_content 2026 "A --> B".toList = "A  -->  B".toList := by
  constructor <;> decide

/-- The (text, url) pairs of all markdown links in a document, via the same
link regex `enhance_real_links` uses. -/
def mdLinkPairs (s : List Char) : List (List Char × List Char) :=
  (pyFindAll false linkPattern s).map (fun caps => (capGet caps 1, capGet caps 2))

/-- C2 fails: `validate_and_clean_links` keeps the link
`[x](http://evil.com/github.com)` unchanged — the trusted-domain test is a
substring test on the whole URL, not a host test — so its output contains a
markdown link whose URL's host `evil.com` is outside the allow-list. -/
theorem C2_untrusted_host_survives :
    validate_and_clean_links "[x](http://evil.com/github.com)".toList =
        "[x](http://evil.com/github.com)".toList ∧
      mdLinkPairs
          (validate_and_clean_links "[x](http://evil.com/github.com)".toList) =
        [("x".toList, "http://evil.com/github.com".toList)] ∧
      urlNetloc "http://evil.com/github.com".toList = "evil.com".toList ∧
      "evil.com".toList ∉ trusted_domains := by
  refine ⟨by decide, by decide, by decide, by decide⟩

/-- C2 amended: the per-link gate of the sanitizer keeps a well-formed
markdown link as a link if and only if some trusted domain occurs as a
substring of the lowercased URL; membership of the URL's host in the
allow-list is *not* what is tested, so links with untrusted hosts survive
whenever a trusted domain appears anywhere in the URL. -/
theorem C2_trusted_substring_gate (text url : List Char)
    (h : validate_url url = true) :
    validateLink text url = mkMdLink text url ↔
      trusted_domains.any (fun d => containsSub (url.map pyLower) d) = true := by
  by_cases hA : (trusted_domains.any fun d => containsSub (url.map pyLower) d) = true
  · simp [validateLink, h, hA]
  · have hA' : (trusted_domains.any fun d => containsSub (url.map pyLower) d) = false :=
      Bool.eq_false_iff.mpr hA
    simp only [validateLink, h, hA', Bool.false_eq_true, if_false]
    constructor
    · intro hEq
      exfalso
      have h2 := congrArg List.head? hEq
      have e : ("**".toList : List Char) = ['*', '*'] := rfl
      rw [e] at h2
      simp [mkMdLink] at h2
    · intro hF
      exact hF.elim

/-- Witness for C2's amended gate at the counterexample link. -/
theorem C2_trusted_substring_gate_witness :
    validateLink "x".toList "http://evil.com/github.com".toList =
      mkMdLink "x".toList "http://evil.com/github.com".toList :=
  (C2_trusted_substring_gate "x".toList "http://evil.com/github.com".toList
    (by decide)).mpr (by decide)

lemma matchStar_consumed_le (next : List Char → Caps → List (Nat × Caps))
    (g : Bool)
    (hnext : ∀ s caps m, m ∈ next s caps → m.1 ≤ s.length) :
    ∀ (f : Nat) (s : List Char) (caps : Caps) (m : Nat × Caps),
      m ∈ matchStar next g f s caps → m.1 ≤ s.length := by
  intro f
  induction f with
  | zero =>
    intro s caps m hm
    simp only [matchStar, List.mem_singleton] at hm
    simp [hm]
  | succ f ih =>
    intro s caps m hm
    simp only [matchStar] at hm
    have main : m ∈ (next s caps).flatMap (fun p =>
        if p.1 = 0 then []
        else (matchStar next g f (s.drop p.1) p.2).map
          (fun q => (p.1 + q.1, q.2))) → m.1 ≤ s.length := by
      intro hd
      rw [List.mem_flatMap] at hd
      obtain ⟨p, hp, hmem⟩ := hd
      by_cases hz : p.1 = 0
      · simp [hz] at hmem
      · simp only [hz, if_false, List.mem_map] at hmem
        obtain ⟨q, hq, rfl⟩ := hmem
        have h1 := hnext s caps p hp
        have h2 := ih (s.drop p.1) p.2 q hq
        rw [List.length_drop] at h2
        simp only []
        omega
    cases g with
    | true =>
      simp only [show (true = true) = True from by simp, if_true,
        List.mem_append, List.mem_singleton] at hm
      rcases hm with hd | rfl
      · exact main hd
      · simp
    | false =>
      simp only [show (false = true) = False from by simp, if_false,
        List.mem_cons] at hm
      rcases hm with rfl | hd
      · simp
      · exact main hd

lemma matchRE_consumed_le (ci : Bool) :
    ∀ (p : RE) (s : List Char) (caps : Caps) (m : Nat × Caps),
      m ∈ matchRE ci p s caps → m.1 ≤ s.length := by
  intro p
  induction p with
  | eps =>
    intro s caps m hm
    simp only [matchRE, List.mem_singleton] at hm
    simp [hm]
  | lit c =>
    intro s caps m hm
    cases s with
    | nil => simp [matchRE] at hm
    | cons a t =>
      simp only [matchRE] at hm
      split at hm <;> simp at hm
      simp [hm]
  | cls neg ranges =>
    intro s caps m hm
    cases s with
    | nil => simp [matchRE] at hm
    | cons a t =>
      simp only [matchRE] at hm
      split at hm <;> simp at hm
      simp [hm]
  | anyc d =>
    intro s caps m hm
    cases s with
    | nil => simp [matchRE] at hm
    | cons a t =>
      simp only [matchRE] at hm
      split at hm <;> simp at hm
      simp [hm]
  | eol =>
    intro s caps m hm
    cases s with
    | nil =>
      simp only [matchRE, List.mem_singleton] at hm
      simp [hm]
    | cons a t =>
      simp only [matchRE] at hm
      split at hm <;> simp at hm
      simp [hm]
  | seq a b iha ihb =>
    intro s caps m hm
    simp only [matchRE, List.mem_flatMap, List.mem_map] at hm
    obtain ⟨p, hp, q, hq, rfl⟩ := hm
    have h1 := iha s caps p hp
    have h2 := ihb (s.drop p.1) p.2 q hq
    rw [List.length_drop] at h2
    simp only []
    omega
  | alt a b iha ihb =>
    intro s caps m hm
    simp only [matchRE, List.mem_append] at hm
    rcases hm with h | h
    · exact iha s caps m h
    · exact ihb s caps m h
  | grp n r ih =>
    intro s caps m hm
    simp only [matchRE, List.mem_map] at hm
    obtain ⟨p, hp, rfl⟩ := hm
    exact ih s caps p hp
  | star g r ih =>
    intro s caps m hm
    exact matchStar_consumed_le _ g (fun s' caps' m' hm' => ih s' caps' m' hm')
      (s.length + 1) s caps m hm

lemma head_mem_of_head?_eq {α : Type} {l : List α} {x : α}
    (h : l.head? = some x) : x ∈ l := by
  cases l with
  | nil => simp at h
  | cons a t =>
    simp only [List.head?] at h
    rw [Option.some_inj] at h
    rw [← h]
    exact List.mem_cons_self a t

/-- One-step unfolding of `pySubF` at successor fuel. -/
lemma pySubF_succ (ci : Bool) (p : RE) (repl : Caps → List Char → List Char)
    (f : Nat) (s : List Char) :
    pySubF ci p repl (f + 1) s =
      match (matchRE ci p s []).head? with
      | some m =>
        if m.1 = 0 then
          repl m.2 [] ++
            (match s with
             | [] => []
             | c :: t => c :: pySubF ci p repl f t)
        else repl m.2 (s.take m.1) ++ pySubF ci p repl f (s.drop m.1)
      | none =>
        match s with
        | [] => []
        | c :: t => c :: pySubF ci p repl f t := rfl

lemma pySubF_congr (ci : Bool) (p : RE) (repl : Caps → List Char → List Char) :
    ∀ (f : Nat) (s : List Char) (f' : Nat), s.length < f' → f' ≤ f →
      pySubF ci p repl f' s = pySubF ci p repl (s.length + 1) s := by
  intro f
  induction f with
  | zero => intro s f' h1 h2; omega
  | succ f ih =>
    intro s f' h1 h2
    by_cases hf : f' ≤ f
    · exact ih s f' h1 hf
    · have hf' : f' = f + 1 := by omega
      subst hf'
      rw [pySubF_succ, pySubF_succ]
      rcases hM : (matchRE ci p s []).head? with _ | m
      · cases s with
        | nil => rfl
        | cons c t =>
          simp only
          rw [ih t f (by simp at h1 ⊢; omega) (le_refl f)]
          simp only [List.length_cons]
      · have hmem := head_mem_of_head?_eq hM
        have hle := matchRE_consumed_le ci p s [] m hmem
        by_cases hz : m.1 = 0
        · cases s with
          | nil => simp [hz]
          | cons c t =>
            simp only [hz, if_true]
            rw [ih t f (by simp at h1 ⊢; omega) (le_refl f)]
            simp only [List.length_cons]
        · have hpos : 0 < s.length := by omega
          have hdrop : (s.drop m.1).length < s.length := by
            rw [List.length_drop]; omega
          simp only [hz, if_false]
          rw [ih (s.drop m.1) f (by omega) (le_refl f),
            ih (s.drop m.1) s.length (by omega) (by omega)]

lemma pySub_head_match {ci : Bool} {p : RE} {repl : Caps → List Char → List Char}
    {s : List Char} {n : Nat} {caps : Caps}
    (h : (matchRE ci p s []).head? = some (n, caps)) (hn : n ≠ 0) :
    pySub ci p repl s = repl caps (s.take n) ++ pySub ci p repl (s.drop n) := by
  have hmem := head_mem_of_head?_eq h
  have hle := matchRE_consumed_le ci p s [] _ hmem
  simp only at hle
  have hpos : 0 < s.length := by omega
  unfold pySub
  rw [pySubF_succ, h]
  simp only [hn, if_false]
  congr 1
  have hdrop : (s.drop n).length < s.length := by
    rw [List.length_drop]; omega
  exact pySubF_congr ci p repl s.length (s.drop n) s.length (by omega) (le_refl _)

lemma pySub_nomatch_cons {ci : Bool} {p : RE} {repl : Caps → List Char → List Char}
    {c : Char} {t : List Char}
    (h : matchRE ci p (c :: t) [] = []) :
    pySub ci p repl (c :: t) = c :: pySub ci p repl t := by
  unfold pySub
  rw [List.length_cons, pySubF_succ, h]
  rfl

lemma pySub_nil_nomatch {ci : Bool} {p : RE} {repl : Caps → List Char → List Char}
    (h : matchRE ci p [] [] = []) :
    pySub ci p repl [] = [] := by
  unfold pySub
  rw [pySubF_succ, h]
  rfl

lemma pySub_id_of_nomatch {ci : Bool} {p : RE} {repl : Caps → List Char → List Char} :
    ∀ {s : List Char}, (∀ k, matchRE ci p (s.drop k) [] = []) →
      pySub ci p repl s = s := by
  intro s
  induction s with
  | nil =>
    intro h
    exact pySub_nil_nomatch (by simpa using h 0)
  | cons c t ih =>
    intro h
    rw [pySub_nomatch_cons (by simpa using h 0)]
    rw [ih (fun k => by simpa using h (k + 1))]

lemma nomatch_all {ci : Bool} {p : RE} (s : List Char)
    (hb : ∀ k < s.length, matchRE ci p (s.drop k) [] = [])
    (hnil : matchRE ci p [] [] = []) :
    ∀ k, matchRE ci p (s.drop k) [] = [] := by
  intro k
  by_cases hk : k < s.length
  · exact hb k hk
  · rw [List.drop_eq_nil_of_le (by omega)]
    exact hnil

lemma pySub_skip {ci : Bool} {p : RE} {repl : Caps → List Char → List Char} :
    ∀ (m : Nat) (s : List Char), m ≤ s.length →
      (∀ k < m, matchRE ci p (s.drop k) [] = []) →
      pySub ci p repl s = s.take m ++ pySub ci p repl (s.drop m) := by
  intro m
  induction m with
  | zero => intro s _ _; simp
  | succ m ih =>
    intro s hm h
    cases s with
    | nil => simp at hm
    | cons c t =>
      rw [pySub_nomatch_cons (by simpa using h 0 (Nat.succ_pos m))]
      rw [ih t (by simpa using hm)
        (fun k hk => by simpa using h (k + 1) (by omega))]
      simp

lemma litMatches_false_eq {p c : Char} (h : litMatches false p c = true) :
    c = p := by
  simp [litMatches] at h
  exact h

lemma oldYearWordPat_nomatch {s : List Char} (hy : 'y' ∉ s) (caps : Caps) :
    matchRE false oldYearWordPat s caps = [] := by
  rw [List.eq_nil_iff_forall_not_mem]
  intro m hm
  unfold oldYearWordPat at hm
  simp only [matchRE, List.mem_flatMap, List.mem_map] at hm
  obtain ⟨p, hp, hq⟩ := hm
  obtain ⟨q, hq2, -⟩ := hq
  obtain ⟨u, hu, -⟩ := hq2
  revert hu
  rcases hd : s.drop p.1 with _ | ⟨c, t⟩
  · simp [matchRE]
  · simp only [matchRE]
    split
    · intro hmem
      have hc : c = 'y' := litMatches_false_eq (by assumption)
      have : 'y' ∈ s.drop p.1 := by
        rw [hd, hc]
        exact List.mem_cons_self _ _
      exact absurd (List.mem_of_mem_drop this) hy
    · simp

lemma natToCharsAux_mem :
    ∀ (f n : Nat) (c : Char), c ∈ natToCharsAux f n →
      ∃ d, d < 10 ∧ c = Char.ofNat (48 + d) := by
  intro f
  induction f with
  | zero => intro n c hc; simp [natToCharsAux] at hc
  | succ f ih =>
    intro n c hc
    cases n with
    | zero => simp [natToCharsAux] at hc
    | succ n =>
      simp only [natToCharsAux, List.mem_append, List.mem_singleton] at hc
      rcases hc with hc | hc
      · exact ih _ c hc
      · exact ⟨(n + 1) % 10, Nat.mod_lt _ (by omega), hc⟩

lemma natToChars_ne_y (n : Nat) (c : Char) (hc : c ∈ natToChars n) :
    c ≠ 'y' := by
  unfold natToChars at hc
  split at hc
  · simp at hc
    rw [hc]; decide
  · obtain ⟨d, hd, rfl⟩ := natToCharsAux_mem n n c hc
    interval_cases d <;> decide

/-- C4: `fix_date_consistency` (i) leaves any document with no stale-date
match unchanged, (ii) rewrites `2022-06-15` to `{year}-06-15` preserving the
month and day, (iii) leaves `2019-06-15` (outside the 2020–2023 window)
unchanged, and (iv) rewrites each stale occurrence in a mixed document while
preserving everything else. -/
theorem C4_date_consistency (currentYear : Nat) :
    (∀ c : List Char,
        (∀ k, matchRE false oldDateFullPat (c.drop k) [] = []) →
        (∀ k, matchRE false oldYearWordPat (c.drop k) [] = []) →
        fix_date_consistency currentYear c = c) ∧
      fix_date_consistency currentYear "2022-06-15".toList =
        natToChars currentYear ++ "-06-15".toList ∧
      fix_date_consistency currentYear "2019-06-15".toList =
        "2019-06-15".toList ∧
      fix_date_consistency currentYear
          "a 2022-06-15 b 2019-06-15 c 2021-01-02".toList =
        "a ".toList ++ natToChars currentYear ++ "-06-15".toList ++
          " b 2019-06-15 c ".toList ++ natToChars currentYear ++
          "-01-02".toList := by
  have hnoY : ∀ (pre post : List Char), (∀ c ∈ pre, c ≠ 'y') → 'y' ∉ post →
      ∀ k, matchRE false oldYearWordPat ((pre ++ post).drop k) [] = [] := by
    intro pre post hpre hpost k
    apply oldYearWordPat_nomatch
    intro hy
    rcases List.mem_append.mp (List.mem_of_mem_drop hy) with h | h
    · exact hpre _ h rfl
    · exact hpost h
  have hrepl1 : replaceOldDate currentYear [] "2022-06-15".toList =
      natToChars currentYear ++ "-06-15".toList := by
    simp only [replaceOldDate]
    rw [if_pos (by decide)]
    rw [show (List.drop 1 (splitOnCh '-' "2022-06-15".toList)).headD [] =
      "06".toList from by decide]
    rw [show (List.drop 2 (splitOnCh '-' "2022-06-15".toList)).headD [] =
      "15".toList from by decide]
    simp only [List.append_assoc]
    congr 1
  have hrepl2 : replaceOldDate currentYear [] "2021-01-02".toList =
      natToChars currentYear ++ "-01-02".toList := by
    simp only [replaceOldDate]
    rw [if_pos (by decide)]
    rw [show (List.drop 1 (splitOnCh '-' "2021-01-02".toList)).headD [] =
      "01".toList from by decide]
    rw [show (List.drop 2 (splitOnCh '-' "2021-01-02".toList)).headD [] =
      "02".toList from by decide]
    simp only [List.append_assoc]
    congr 1
  refine ⟨?_, ?_, ?_, ?_⟩
  · intro c h1 h2
    unfold fix_date_consistency
    rw [pySub_id_of_nomatch h1, pySub_id_of_nomatch h2]
  · have hA : pySub false oldDateFullPat (replaceOldDate currentYear)
        "2022-06-15".toList = natToChars currentYear ++ "-06-15".toList := by
      rw [@pySub_head_match false oldDateFullPat (replaceOldDate currentYear)
        "2022-06-15".toList 10 [] (by decide) (by decide)]
      rw [show ("2022-06-15".toList.take 10) = "2022-06-15".toList from by decide]
      rw [show ("2022-06-15".toList.drop 10) = ([] : List Char) from by decide]
      rw [pySub_nil_nomatch (by decide), hrepl1, List.append_nil]
    unfold fix_date_consistency
    rw [hA]
    exact pySub_id_of_nomatch
      (hnoY _ _ (natToChars_ne_y currentYear) (by decide))
  · unfold fix_date_consistency
    rw [pySub_id_of_nomatch
        (nomatch_all "2019-06-15".toList (by
          intro k hk
          rw [show ("2019-06-15".toList.length) = 10 from by decide] at hk
          interval_cases k <;> decide) (by decide)),
      pySub_id_of_nomatch
        (nomatch_all "2019-06-15".toList (by
          intro k hk
          rw [show ("2019-06-15".toList.length) = 10 from by decide] at hk
          interval_cases k <;> decide) (by decide))]
  · have hA : pySub false oldDateFullPat (replaceOldDate currentYear)
        "a 2022-06-15 b 2019-06-15 c 2021-01-02".toList =
        "a ".toList ++ (natToChars currentYear ++ ("-06-15".toList ++
          (" b 2019-06-15 c ".toList ++ (natToChars currentYear ++
            "-01-02".toList)))) := by
      rw [@pySub_skip false oldDateFullPat (replaceOldDate currentYear) 2
        "a 2022-06-15 b 2019-06-15 c 2021-01-02".toList (by decide)
        (by intro k hk; interval_cases k <;> decide)]
      rw [show ("a 2022-06-15 b 2019-06-15 c 2021-01-02".toList.drop 2) =
        "2022-06-15 b 2019-06-15 c 2021-01-02".toList from by decide]
      rw [show ("a 2022-06-15 b 2019-06-15 c 2021-01-02".toList.take 2) =
        "a ".toList from by decide]
      rw [@pySub_head_match false oldDateFullPat (replaceOldDate currentYear)
        "2022-06-15 b 2019-06-15 c 2021-01-02".toList 10 [] (by decide)
        (by decide)]
      rw [show ("2022-06-15 b 2019-06-15 c 2021-01-02".toList.take 10) =
        "2022-06-15".toList from by decide]
      rw [show ("2022-06-15 b 2019-06-15 c 2021-01-02".toList.drop 10) =
        " b 2019-06-15 c 2021-01-02".toList from by decide]
      rw [@pySub_skip false oldDateFullPat (replaceOldDate currentYear) 16
        " b 2019-06-15 c 2021-01-02".toList (by decide)
        (by intro k hk; interval_cases k <;> decide)]
      rw [show (" b 2019-06-15 c 2021-01-02".toList.take 16) =
        " b 2019-06-15 c ".toList from by decide]
      rw [show (" b 2019-06-15 c 2021-01-02".toList.drop 16) =
        "2021-01-02".toList from by decide]
      rw [@pySub_head_match false oldDateFullPat (replaceOldDate currentYear)
        "2021-01-02".toList 10 [] (by decide) (by decide)]
      rw [show ("2021-01-02".toList.take 10) = "2021-01-02".toList from by decide]
      rw [show ("2021-01-02".toList.drop 10) = ([] : List Char) from by decide]
      rw [pySub_nil_nomatch (by decide), hrepl1, hrepl2, List.append_nil]
      simp only [List.append_assoc]
    have hy : ∀ k, matchRE false oldYearWordPat
        (("a ".toList ++ (natToChars currentYear ++ ("-06-15".toList ++
          (" b 2019-06-15 c ".toList ++ (natToChars currentYear ++
            "-01-02".toList))))).drop k) [] = [] := by
      intro k
      apply oldYearWordPat_nomatch
      intro hmem
      have h0 := List.mem_of_mem_drop hmem
      simp only [List.mem_append] at h0
      rcases h0 with h | h | h | h | h | h
      · revert h; decide
      · exact natToChars_ne_y _ _ h rfl
      · revert h; decide
      · revert h; decide
      · exact natToChars_ne_y _ _ h rfl
      · revert h; decide
    unfold fix_date_consistency
    rw [hA, pySub_id_of_nomatch hy]
    simp only [List.append_assoc]

/-- Witness for C4 at `currentYear = 2026`: the stale date is rewritten to
`2026-06-15`, and a document with no date-like text passes unchanged. -/
theorem C4_date_consistency_witness :
    fix_date_consistency 2026 "2022-06-15".toList = "2026-06-15".toList ∧
      fix_date_consistency 2026 "no dates".toList = "no dates".toList := by
  constructor
  · rw [(C4_date_consistency 2026).2.1]
    decide
  · exact (C4_date_consistency 2026).1 "no dates".toList
      (nomatch_all "no dates".toList
        (by
          intro k hk
          rw [show ("no dates".toList.length) = 8 from by decide] at hk
          interval_cases k <;> decide) (by decide))
      (nomatch_all "no dates".toList
        (by
          intro k hk
          rw [show ("no dates".toList.length) = 8 from by decide] at hk
          interval_cases k <;> decide) (by decide))

lemma splitOnCh_ne_nil (sep : Char) : ∀ s, splitOnCh sep s ≠ [] := by
  intro s
  cases s with
  | nil => simp [splitOnCh]
  | cons c t =>
    simp only [splitOnCh]
    split
    · simp
    · rcases h : splitOnCh sep t with _ | ⟨a, r⟩ <;> simp

lemma splitOnCh_not_mem (sep : Char) : ∀ s, ∀ l ∈ splitOnCh sep s, sep ∉ l := by
  intro s
  induction s with
  | nil =>
    intro l hl
    simp [splitOnCh] at hl
    simp [hl]
  | cons c t ih =>
    intro l hl
    simp only [splitOnCh] at hl
    by_cases hc : c = sep
    · rw [if_pos hc] at hl
      rcases List.mem_cons.mp hl with rfl | h
      · simp
      · exact ih l h
    · rw [if_neg hc] at hl
      rcases hsp : splitOnCh sep t with _ | ⟨a, r⟩
      · exact absurd hsp (splitOnCh_ne_nil sep t)
      · rw [hsp] at hl
        rcases List.mem_cons.mp hl with rfl | h
        · intro hmem
          rcases List.mem_cons.mp hmem with rfl | h2
          · exact hc rfl
          · exact ih a (by rw [hsp]; exact List.mem_cons_self a r) h2
        · exact ih l (by rw [hsp]; exact List.mem_cons.mpr (Or.inr h))

lemma splitOnNl_not_mem (s : List Char) (l : List Char)
    (h : l ∈ splitOnNl s) : '\n' ∉ l :=
  splitOnCh_not_mem '\n' s l h

lemma splitOnNl_singleton {a : List Char} (h : '\n' ∉ a) :
    splitOnNl a = [a] := by
  induction a with
  | nil => rfl
  | cons c t ih =>
    have hc : ¬(c = '\n') := fun hc => h (hc ▸ List.mem_cons_self c t)
    have ht : '\n' ∉ t := fun hm => h (List.mem_cons.mpr (Or.inr hm))
    simp only [splitOnNl, splitOnCh, if_neg hc] at *
    rw [ih ht]

lemma splitOnNl_append_cons {a : List Char} (h : '\n' ∉ a) (r : List Char) :
    splitOnNl (a ++ '\n' :: r) = a :: splitOnNl r := by
  induction a with
  | nil => simp [splitOnNl, splitOnCh]
  | cons c t ih =>
    have hc : ¬(c = '\n') := fun hc => h (hc ▸ List.mem_cons_self c t)
    have ht : '\n' ∉ t := fun hm => h (List.mem_cons.mpr (Or.inr hm))
    simp only [List.cons_append, splitOnNl, splitOnCh, if_neg hc,
      List.append_eq] at *
    rw [ih ht]

lemma splitOnNl_joinNl :
    ∀ (L : List (List Char)), L ≠ [] → (∀ l ∈ L, '\n' ∉ l) →
      splitOnNl (joinNl L) = L := by
  intro L
  induction L with
  | nil => intro h; exact absurd rfl h
  | cons a L ih =>
    intro _ hmem
    cases L with
    | nil =>
      show splitOnNl (joinNl [a]) = [a]
      rw [show joinNl [a] = a from rfl]
      exact splitOnNl_singleton (hmem a (List.mem_cons_self a []))
    | cons b L' =>
      rw [show joinNl (a :: b :: L') = a ++ '\n' :: joinNl (b :: L') from rfl]
      rw [splitOnNl_append_cons (hmem a (List.mem_cons_self _ _))]
      rw [ih (by simp) (fun l hl => hmem l (List.mem_cons.mpr (Or.inr hl)))]

lemma rebuildLines_append (lines : List (List Char)) :
    ∀ (ss1 : List EditableSection) (cur : Nat) (tgt : EditableSection)
      (ss2 : List EditableSection),
      rebuildLines lines cur (ss1 ++ tgt :: ss2) =
        rebuildUpTo lines cur ss1 tgt.start_line ++ splitOnNl tgt.content ++
          rebuildLines lines (tgt.end_line + 1) ss2 := by
  intro ss1
  induction ss1 with
  | nil =>
    intro cur tgt ss2
    simp [rebuildLines, rebuildUpTo, List.append_assoc]
  | cons sec rest ih =>
    intro cur tgt ss2
    simp only [List.cons_append, rebuildLines, rebuildUpTo, List.append_eq]
    rw [ih]
    simp [List.append_assoc]

lemma insertByStart_sorted (x : EditableSection) (l : List EditableSection)
    (h : List.Chain' (fun a b => a.start_line ≤ b.start_line) (x :: l)) :
    insertByStart x l = x :: l := by
  cases l with
  | nil => rfl
  | cons y t =>
    have hxy : x.start_line ≤ y.start_line := (List.chain'_cons.mp h).1
    simp [insertByStart, hxy]

lemma sortByStart_sorted :
    ∀ (l : List EditableSection),
      List.Chain' (fun a b => a.start_line ≤ b.start_line) l →
      sortByStart l = l := by
  intro l
  induction l with
  | nil => intro _; rfl
  | cons x t ih =>
    intro h
    show insertByStart x (sortByStart t) = x :: t
    rw [ih (List.Chain'.tail h)]
    exact insertByStart_sorted x t h

lemma updateFirst_append (id nc : List Char) :
    ∀ (ss1 : List EditableSection) (tgt : EditableSection)
      (ss2 : List EditableSection),
      (∀ x ∈ ss1, (x.section_id == id) = false) →
      (tgt.section_id == id) = true →
      updateFirst id nc (ss1 ++ tgt :: ss2) =
        ss1 ++ {tgt with content := nc} :: ss2 := by
  intro ss1
  induction ss1 with
  | nil =>
    intro tgt ss2 _ htgt
    simp [updateFirst, htgt]
  | cons x rest ih =>
    intro tgt ss2 hss1 htgt
    have hx : (x.section_id == id) = false := hss1 x (List.mem_cons_self _ _)
    simp only [List.cons_append, updateFirst, hx, Bool.false_eq_true,
      if_false, List.append_eq]
    rw [ih tgt ss2 (fun y hy => hss1 y (List.mem_cons.mpr (Or.inr hy))) htgt]

lemma find?_append_cons (id : List Char) :
    ∀ (ss1 : List EditableSection) (tgt : EditableSection)
      (ss2 : List EditableSection),
      (∀ x ∈ ss1, (x.section_id == id) = false) →
      (tgt.section_id == id) = true →
      (ss1 ++ tgt :: ss2).find? (fun sec => sec.section_id == id) = some tgt := by
  intro ss1
  induction ss1 with
  | nil =>
    intro tgt ss2 _ htgt
    simp [List.find?, htgt]
  | cons x rest ih =>
    intro tgt ss2 hss1 htgt
    have hx : (x.section_id == id) = false := hss1 x (List.mem_cons_self _ _)
    simp only [List.cons_append, List.find?, hx]
    exact ih tgt ss2 (fun y hy => hss1 y (List.mem_cons.mpr (Or.inr hy))) htgt

lemma chain'_update_content (nc : List Char)
    (ss1 : List EditableSection) (tgt : EditableSection)
    (ss2 : List EditableSection)
    (h : List.Chain' (fun a b => a.start_line ≤ b.start_line)
      (ss1 ++ tgt :: ss2)) :
    List.Chain' (fun a b => a.start_line ≤ b.start_line)
      (ss1 ++ {tgt with content := nc} :: ss2) := by
  rw [List.chain'_append] at h ⊢
  refine ⟨h.1, ?_, ?_⟩
  · rw [List.chain'_cons'] at h ⊢
    exact ⟨fun y hy => h.2.1.1 y hy, h.2.1.2⟩
  · intro x hx y hy
    simp only [List.head?_cons, Option.mem_def, Option.some_inj] at hy
    exact hy ▸ h.2.2 x hx tgt (by simp)

lemma rebuildUpTo_no_nl (lines : List (List Char))
    (hl : ∀ l ∈ lines, '\n' ∉ l) :
    ∀ (ss : List EditableSection) (cur stop : Nat),
      ∀ l ∈ rebuildUpTo lines cur ss stop, '\n' ∉ l := by
  intro ss
  induction ss with
  | nil =>
    intro cur stop l hmem
    simp only [rebuildUpTo] at hmem
    exact hl l (List.mem_of_mem_drop (List.mem_of_mem_take hmem))
  | cons sec rest ih =>
    intro cur stop l hmem
    simp only [rebuildUpTo, List.mem_append] at hmem
    rcases hmem with (h | h) | h
    · exact hl l (List.mem_of_mem_drop (List.mem_of_mem_take h))
    · exact splitOnNl_not_mem _ l h
    · exact ih _ _ l h

lemma rebuildLines_no_nl (lines : List (List Char))
    (hl : ∀ l ∈ lines, '\n' ∉ l) :
    ∀ (ss : List EditableSection) (cur : Nat),
      ∀ l ∈ rebuildLines lines cur ss, '\n' ∉ l := by
  intro ss
  induction ss with
  | nil =>
    intro cur l hmem
    simp only [rebuildLines] at hmem
    exact hl l (List.mem_of_mem_drop hmem)
  | cons sec rest ih =>
    intro cur l hmem
    simp only [rebuildLines, List.mem_append] at hmem
    rcases hmem with (h | h) | h
    · exact hl l (List.mem_of_mem_drop (List.mem_of_mem_take h))
    · exact splitOnNl_not_mem _ l h
    · exact ih _ l h

/-- C3 amended: `update_section` with an unknown id, or with the id of a
non-editable section, returns `false` and leaves the whole editor state
unchanged (hence `get_modified_content()` and the history unchanged).  With
the id of an editable section it returns `true`, appends exactly one
`EditHistoryEntry`, and — provided the rebuilt document is non-empty —
`get_modified_content()` is the original lines with the new content spliced
in place of that section's original line range (the surrounding pieces
`rebuildUpTo …` and `rebuildLines …` do not depend on the new content).
When the rebuild produces the empty string, `get_modified_content()` falls
back to the original content instead (see `C3_counterexample`). -/
theorem C3_update_section_behaviour (s : PlanEditorState)
    (now id nc comment : List Char) :
    (s.sections.find? (fun sec => sec.section_id == id) = none →
      update_section now id nc comment s = (false, s)) ∧
    (∀ tgt, s.sections.find? (fun sec => sec.section_id == id) = some tgt →
      tgt.is_editable = false →
      update_section now id nc comment s = (false, s)) ∧
    (∀ ss1 tgt ss2,
      s.sections = ss1 ++ tgt :: ss2 →
      (∀ x ∈ ss1, (x.section_id == id) = false) →
      (tgt.section_id == id) = true →
      tgt.is_editable = true →
      List.Chain' (fun a b => a.start_line ≤ b.start_line) s.sections →
      (update_section now id nc comment s).1 = true ∧
        (update_section now id nc comment s).2.edit_history =
          s.edit_history ++ [⟨now, id, tgt.content, nc, comment⟩] ∧
        ((update_section now id nc comment s).2.modified_content ≠ [] →
          splitOnNl
              (get_modified_content (update_section now id nc comment s).2) =
            rebuildUpTo (splitOnNl s.original_content) 0 ss1 tgt.start_line ++
              splitOnNl nc ++
              rebuildLines (splitOnNl s.original_content) (tgt.end_line + 1)
                ss2)) := by
  refine ⟨?_, ?_, ?_⟩
  · intro h
    simp only [update_section, h]
  · intro tgt hf he
    simp only [update_section, hf, he, if_pos]
  · intro ss1 tgt ss2 hdec hss1 htgt hed hchain
    have hf : s.sections.find? (fun sec => sec.section_id == id) = some tgt := by
      rw [hdec]; exact find?_append_cons id ss1 tgt ss2 hss1 htgt
    have hres : update_section now id nc comment s =
        (true,
          { s with
              sections := updateFirst id nc s.sections
              edit_history :=
                s.edit_history ++ [⟨now, id, tgt.content, nc, comment⟩]
              modified_content :=
                rebuild_content s.original_content
                  (updateFirst id nc s.sections) }) := by
      simp only [update_section, hf]
      rw [if_neg (by simp [hed])]
    have hsecs' : updateFirst id nc s.sections =
        ss1 ++ {tgt with content := nc} :: ss2 := by
      rw [hdec]; exact updateFirst_append id nc ss1 tgt ss2 hss1 htgt
    have hchain' : List.Chain'
        (fun a b => a.start_line ≤ b.start_line)
        (ss1 ++ {tgt with content := nc} :: ss2) :=
      chain'_update_content nc ss1 tgt ss2 (hdec ▸ hchain)
    have hmod : rebuild_content s.original_content
        (updateFirst id nc s.sections) =
        joinNl (rebuildUpTo (splitOnNl s.original_content) 0 ss1
            tgt.start_line ++
          splitOnNl nc ++
          rebuildLines (splitOnNl s.original_content) (tgt.end_line + 1)
            ss2) := by
      unfold rebuild_content
      rw [hsecs', sortByStart_sorted _ hchain', rebuildLines_append]
    refine ⟨by rw [hres], by rw [hres], ?_⟩
    intro hne
    rw [hres] at hne ⊢
    simp only at hne ⊢
    rw [get_modified_content, if_neg hne, hmod]
    apply splitOnNl_joinNl
    · intro hL
      have hsplit := splitOnCh_ne_nil '\n' nc
      rcases List.append_eq_nil.mp hL with ⟨hL1, hL2⟩
      rcases List.append_eq_nil.mp hL1 with ⟨-, hL3⟩
      exact hsplit hL3
    · intro l hl
      have hlines : ∀ l' ∈ splitOnNl s.original_content, '\n' ∉ l' :=
        fun l' h' => splitOnNl_not_mem _ l' h'
      rcases List.mem_append.mp hl with h | h
      · rcases List.mem_append.mp h with h' | h'
        · exact rebuildUpTo_no_nl _ hlines ss1 0 tgt.start_line l h'
        · exact splitOnNl_not_mem nc l h'
      · exact rebuildLines_no_nl _ hlines ss2 (tgt.end_line + 1) l h

/-- C3 fails as stated: clearing the only section of the document `"x"`
succeeds (`true`, one history entry) and the rebuilt document — the new
empty content spliced in place of the section's line range — is the empty
string, but `get_modified_content()` then falls back to the *original*
content `"x"`, so it does not contain the new content spliced in. -/
theorem C3_counterexample :
    (update_section "t".toList "paragraph_1".toList [] []
        (editor_parse initial_editor "x".toList)).1 = true ∧
      (update_section "t".toList "paragraph_1".toList [] []
        (editor_parse initial_editor "x".toList)).2.edit_history.length = 1 ∧
      rebuild_content "x".toList
        (updateFirst "paragraph_1".toList []
          (editor_parse initial_editor "x".toList).sections) = [] ∧
      get_modified_content
        (update_section "t".toList "paragraph_1".toList [] []
          (editor_parse initial_editor "x".toList)).2 = "x".toList := by
  refine ⟨by decide, by decide, by decide, by decide⟩

/-- Witness for C3's amended theorem: editing the paragraph of
`"# T\nhello"` to `"world"` succeeds and the modified content is the
heading line followed by the new paragraph. -/
theorem C3_witness :
    (update_section "t".toList "paragraph_2".toList "world".toList []
        (editor_parse initial_editor "# T\nhello".toList)).1 = true ∧
      splitOnNl (get_modified_content
        (update_section "t".toList "paragraph_2".toList "world".toList []
          (editor_parse initial_editor "# T\nhello".toList)).2) =
        ["# T".toList, "world".toList] := by
  have h := (C3_update_section_behaviour
    (editor_parse initial_editor "# T\nhello".toList) "t".toList
    "paragraph_2".toList "world".toList []).2.2
    [⟨"section_1".toList, "T".toList, "# T".toList, .heading, 1, 0, 0, true⟩]
    ⟨"paragraph_2".toList, "Paragraph".toList, "hello".toList, .paragraph,
      0, 1, 1, true⟩
    [] (by decide) (by decide) (by decide) (by decide)
    (by
      rw [show (editor_parse initial_editor "# T\nhello".toList).sections =
        [⟨"section_1".toList, "T".toList, "# T".toList, .heading, 1, 0, 0,
          true⟩,
         ⟨"paragraph_2".toList, "Paragraph".toList, "hello".toList,
          .paragraph, 0, 1, 1, true⟩] from by decide]
      exact List.chain'_pair.mpr (by decide))
  refine ⟨h.1, ?_⟩
  rw [h.2.2 (by decide)]
  decide

/-- C8 (code bug): parsing `"# AI model\nHello"` does yield exactly a
HEADING followed by a PARAGRAPH, but the heading titled `AI model` — one of
the `non_editable_patterns` verbatim — is marked *editable*: the pattern
list is searched inside the lowercased title, and every pattern except
`meta-info` contains an uppercase letter, so those patterns can never
match. -/
theorem C8_metadata_heading_editable :
    (parse_plan_content "# AI model\nHello".toList).map
        (fun sec => (sec.section_type, sec.is_editable)) =
      [(SType.heading, true), (SType.paragraph, true)] ∧
      (parse_plan_content "# AI model\nHello".toList).head?.map
        (fun sec => sec.title) = some "AI model".toList ∧
      "AI model".toList ∈ non_editable_patterns ∧
      is_section_editable "AI model".toList = true := by
  refine ⟨by decide, by decide, by decide, by decide⟩

/-- The C9 ordering relation: each section ends strictly before the next
one starts. -/
def sectionsOrdered (l : List EditableSection) : Prop :=
  List.Chain' (fun a b => a.end_line < b.start_line) l

/-- Loop invariant of `parseLoop`: finished sections are ordered, have
well-formed ranges lying strictly before line `i`, and the accumulating
section (if any) also has a well-formed range before `i` and starts after
every finished section ends. -/
def ParseInv (i : Nat) (cur : Option EditableSection)
    (secs : List EditableSection) : Prop :=
  sectionsOrdered secs ∧
    (∀ sec ∈ secs, sec.start_line ≤ sec.end_line ∧ sec.end_line < i) ∧
    ∀ c, cur = some c → c.start_line ≤ c.end_line ∧ c.end_line < i ∧
      ∀ sec ∈ secs, sec.end_line < c.start_line

lemma mem_of_getLast?_eq {α : Type} :
    ∀ {l : List α} {a : α}, l.getLast? = some a → a ∈ l := by
  intro l
  induction l with
  | nil => intro a h; simp at h
  | cons x t ih =>
    intro a h
    cases t with
    | nil =>
      simp only [List.getLast?_singleton, Option.some_inj] at h
      simp [h]
    | cons y t' =>
      rw [List.getLast?_cons_cons] at h
      exact List.mem_cons.mpr (Or.inr (ih h))

lemma ordered_append_singleton {secs : List EditableSection}
    {c : EditableSection} (hc : sectionsOrdered secs)
    (h : ∀ x ∈ secs, x.end_line < c.start_line) :
    sectionsOrdered (secs ++ [c]) := by
  unfold sectionsOrdered at *
  rw [List.chain'_append]
  refine ⟨hc, List.chain'_singleton c, ?_⟩
  intro x hx y hy
  simp only [List.head?_cons, Option.mem_def, Option.some_inj] at hy
  subst hy
  exact h x (mem_of_getLast?_eq hx)

lemma flush_ordered {i : Nat} {cur : Option EditableSection}
    {secs : List EditableSection} (h : ParseInv i cur secs) :
    sectionsOrdered (flushCur cur secs) ∧
      ∀ sec ∈ flushCur cur secs,
        sec.start_line ≤ sec.end_line ∧ sec.end_line < i := by
  obtain ⟨hord, hb, hcur⟩ := h
  cases cur with
  | none => exact ⟨hord, hb⟩
  | some c =>
    simp only [flushCur]
    split
    · exact ⟨hord, hb⟩
    · obtain ⟨hc1, hc2, hc3⟩ := hcur c rfl
      refine ⟨ordered_append_singleton hord hc3, ?_⟩
      intro sec hmem
      rcases List.mem_append.mp hmem with h' | h'
      · exact hb sec h'
      · rw [List.mem_singleton.mp h']
        exact ⟨hc1, hc2⟩

lemma inv_fresh_after_flush {i : Nat} {cur : Option EditableSection}
    {secs : List EditableSection} (h : ParseInv i cur secs)
    (sec : EditableSection) (hs : sec.start_line = i) (he : sec.end_line = i) :
    ParseInv (i + 1) (some sec) (flushCur cur secs) := by
  obtain ⟨ho, hbnd⟩ := flush_ordered h
  refine ⟨ho, ?_, ?_⟩
  · intro x hx
    have := hbnd x hx
    omega
  · intro c hc
    rw [Option.some_inj] at hc
    subst hc
    refine ⟨by omega, by omega, ?_⟩
    intro x hx
    have := hbnd x hx
    omega

lemma inv_append_closed {i j : Nat} {cur : Option EditableSection}
    {secs : List EditableSection} (h : ParseInv i cur secs)
    (sec : EditableSection) (hs : sec.start_line = i) (he : sec.end_line = j)
    (hij : i ≤ j) :
    ParseInv (j + 1) none (flushCur cur secs ++ [sec]) := by
  obtain ⟨ho, hbnd⟩ := flush_ordered h
  refine ⟨?_, ?_, ?_⟩
  · exact ordered_append_singleton ho (fun x hx => by
      have := hbnd x hx; omega)
  · intro x hx
    rcases List.mem_append.mp hx with h' | h'
    · have := hbnd x h'
      omega
    · rw [List.mem_singleton.mp h']
      omega
  · intro c hc
    simp at hc

lemma inv_extend_cur {i : Nat} {c : EditableSection}
    {secs : List EditableSection} (h : ParseInv i (some c) secs)
    (c' : EditableSection) (hstart : c'.start_line = c.start_line)
    (hend : c'.end_line = i) :
    ParseInv (i + 1) (some c') secs := by
  obtain ⟨ho, hbnd, hcur⟩ := h
  obtain ⟨hc1, hc2, hc3⟩ := hcur c rfl
  refine ⟨ho, ?_, ?_⟩
  · intro x hx
    have := hbnd x hx
    omega
  · intro d hd
    rw [Option.some_inj] at hd
    subst hd
    refine ⟨by omega, by omega, ?_⟩
    intro x hx
    have := hc3 x hx
    omega

lemma inv_heading_to_paragraph {i : Nat} {c : EditableSection}
    {secs : List EditableSection} (h : ParseInv i (some c) secs)
    (sec : EditableSection) (hs : sec.start_line = i) (he : sec.end_line = i) :
    ParseInv (i + 1) (some sec) (secs ++ [c]) := by
  obtain ⟨ho, hbnd, hcur⟩ := h
  obtain ⟨hc1, hc2, hc3⟩ := hcur c rfl
  refine ⟨ordered_append_singleton ho hc3, ?_, ?_⟩
  · intro x hx
    rcases List.mem_append.mp hx with h' | h'
    · have := hbnd x h'
      omega
    · rw [List.mem_singleton.mp h']
      omega
  · intro d hd
    rw [Option.some_inj] at hd
    subst hd
    refine ⟨by omega, by omega, ?_⟩
    intro x hx
    rcases List.mem_append.mp hx with h' | h'
    · have := hbnd x h'
      omega
    · rw [List.mem_singleton.mp h']
      omega

lemma inv_blank {i : Nat} {cur : Option EditableSection}
    {secs : List EditableSection} (h : ParseInv i cur secs) :
    ParseInv (i + 1) cur secs := by
  obtain ⟨ho, hbnd, hcur⟩ := h
  refine ⟨ho, ?_, ?_⟩
  · intro x hx
    have := hbnd x hx
    omega
  · intro c hc
    obtain ⟨h1, h2, h3⟩ := hcur c hc
    exact ⟨h1, by omega, h3⟩

lemma parseLoop_ordered :
    ∀ (fuel : Nat) (raws : List (List Char)) (i : Nat)
      (cur : Option EditableSection) (secs : List EditableSection) (k : Nat),
      ParseInv i cur secs →
      sectionsOrdered (parseLoop fuel raws i cur secs k) ∧
        ∀ sec ∈ parseLoop fuel raws i cur secs k,
          sec.start_line ≤ sec.end_line := by
  intro fuel
  induction fuel with
  | zero =>
    intro raws i cur secs k h
    obtain ⟨ho, hb⟩ := flush_ordered h
    exact ⟨ho, fun sec hm => (hb sec hm).1⟩
  | succ fuel ih =>
    intro raws i cur secs k h
    cases raws with
    | nil =>
      obtain ⟨ho, hb⟩ := flush_ordered h
      exact ⟨ho, fun sec hm => (hb sec hm).1⟩
    | cons raw rest =>
      simp only [parseLoop]
      split
      · exact ih _ _ _ _ _ (inv_fresh_after_flush h _ rfl rfl)
      · split
        · split
          · exact ih _ _ _ _ _ (inv_append_closed h _ rfl rfl (by omega))
          · exact ih _ _ _ _ _ (inv_append_closed h _ rfl rfl (by omega))
        · split
          · exact ih _ _ _ _ _ (inv_append_closed h _ rfl rfl (by omega))
          · split
            · split
              · split
                · exact ih _ _ _ _ _ (inv_fresh_after_flush h _ rfl rfl)
                · exact ih _ _ _ _ _ (inv_extend_cur h _ rfl rfl)
              · exact ih _ _ _ _ _ (inv_fresh_after_flush h _ rfl rfl)
            · split
              · split
                · split
                  · exact ih _ _ _ _ _ (inv_extend_cur h _ rfl rfl)
                  · split
                    · exact ih _ _ _ _ _ (inv_heading_to_paragraph h _ rfl rfl)
                    · exact ih _ _ _ _ _ (inv_fresh_after_flush h _ rfl rfl)
                · exact ih _ _ _ _ _ (inv_fresh_after_flush h _ rfl rfl)
              · exact ih _ _ _ _ _ (inv_blank h)

/-- C9: the sections returned by a single `parse_plan_content` call cover
non-overlapping line ranges in strictly increasing order: every section
satisfies `start_line ≤ end_line`, and each section starts strictly after
the previous one ends. -/
theorem C9_parse_sections_ordered (content : List Char) :
    sectionsOrdered (parse_plan_content content) ∧
      ∀ sec ∈ parse_plan_content content, sec.start_line ≤ sec.end_line := by
  unfold parse_plan_content
  exact parseLoop_ordered _ _ 0 none [] 0
    ⟨List.chain'_nil, by simp, by simp⟩

/-- Witness for C9 at the two-section document `"# T\nhello"`. -/
theorem C9_parse_sections_ordered_witness :
    sectionsOrdered (parse_plan_content "# T\nhello".toList) ∧
      (⟨"paragraph_2".toList, "Paragraph".toList, "hello".toList,
        SType.paragraph, 0, 1, 1, true⟩ : EditableSection).start_line ≤
        (⟨"paragraph_2".toList, "Paragraph".toList, "hello".toList,
          SType.paragraph, 0, 1, 1, true⟩ : EditableSection).end_line :=
  ⟨(C9_parse_sections_ordered "# T\nhello".toList).1,
   (C9_parse_sections_ordered "# T\nhello".toList).2 _ (by decide)⟩
